import Mathlib

/-!
Verification of the robonomics-interface client SDK.

This file gives a shallow embedding of the parts of the library that the
checked properties talk about:

* `robonomicsinterface/utils.py` — hex/base58 IPFS hash conversions and
  the digital-twin topic encoder;
* `robonomicsinterface/decorators.py` — the reconnect-on-closed-socket
  wrapper `check_socket_opened`;
* `robonomicsinterface/classes/service_functions.py` — call composition
  (including the RWS envelope) and extrinsic submission results;
* `robonomicsinterface/classes/account.py`, `liability.py`, `datalog.py`,
  `subscriptions.py` — the domain façades.

External collaborators (the substrate client, hashlib's sha256, SCALE
encoders, the chain itself) are modelled as oracles: explicit function
parameters or structure fields.  Python exceptions are modelled with
`Except`/`Option`; Python truthiness (`if not x:` on `None`, `0`, `""`,
empty containers) is modelled explicitly, since several properties hinge
on it.
-/

/-- Python values as they appear in call-parameter dictionaries. -/
inductive PyValue where
  | pyNone : PyValue
  | pyInt (n : Int) : PyValue
  | pyStr (s : String) : PyValue
  | pyList (elems : List PyValue) : PyValue
  | pyDict (entries : List (String × PyValue)) : PyValue

/-- Python truthiness of a `PyValue` (`bool(x)`). -/
def pyTruthy : PyValue → Bool
  | .pyNone => false
  | .pyInt n => n != 0
  | .pyStr s => s ≠ ""
  | .pyList l => !l.isEmpty
  | .pyDict d => !d.isEmpty

/-- `x or None` applied to an optional Python value (`params or None` in
`service_functions.py` line 114). -/
def pyOrNone : Option PyValue → Option PyValue
  | none => none
  | some v => if pyTruthy v then some v else none

/-- Exceptions raised by the library or caught by its decorator. -/
inductive PyExc where
  | noPrivateKey : PyExc
  | extrinsicFailed : PyExc
  | brokenPipe : PyExc
  | wsConnClosed : PyExc
  | valueErr : PyExc
  | otherExc (msg : String) : PyExc
deriving DecidableEq

/-- The exception classes caught by `check_socket_opened`
(`BrokenPipeError`, `WebSocketConnectionClosedException`). -/
def isClosedConnErr : PyExc → Bool
  | .brokenPipe => true
  | .wsConnClosed => true
  | _ => false

/-! ### Hex encoding (`bytes.fromhex` / `bytes.hex`) -/

/-- Lowercase hex digits, as produced by Python's `bytes.hex()`. -/
def lcHexChars : List Char := "0123456789abcdef".data

/-- Uppercase hex digits, also accepted by `bytes.fromhex`. -/
def ucHexChars : List Char := "0123456789ABCDEF".data

/-- Value of one hex digit character; `none` for a non-digit
(`bytes.fromhex` raises `ValueError` there).  Whitespace skipping of
`bytes.fromhex` is not modelled: inputs here are plain hex strings. -/
def hexVal (c : Char) : Option Nat :=
  let i := lcHexChars.indexOf c
  if i < 16 then some i
  else
    let j := ucHexChars.indexOf c
    if j < 16 then some j else none

/-- The lowercase hex digit character for a value below 16. -/
def hexChar (n : Nat) : Char := lcHexChars.getD n '*'

/-- `bytes.fromhex`: decode a hex string (as a char list) into bytes.
Fails on odd length or a non-hex character. -/
def hexDecode : List Char → Option (List Nat)
  | [] => some []
  | [_] => none
  | c1 :: c2 :: rest =>
    match hexVal c1, hexVal c2, hexDecode rest with
    | some hi, some lo, some bs => some ((16 * hi + lo) :: bs)
    | _, _, _ => none

/-- `bytes.hex()`: lowercase hex string of a byte list. -/
def hexEncode : List Nat → List Char
  | [] => []
  | b :: bs => hexChar (b / 16) :: hexChar (b % 16) :: hexEncode bs

/-! ### Base58 (the `base58` package, Bitcoin alphabet) -/

/-- The Bitcoin base58 alphabet used by the `base58` package. -/
def b58Alphabet : List Char :=
  "123456789ABCDEFGHJKLMNPQRSTUVWXYZabcdefghijkmnopqrstuvwxyz".data

/-- Character for one base58 digit. -/
def b58Char (d : Nat) : Char := b58Alphabet.getD d '?'

/-- Digit value of one base58 character; `none` for a character outside
the alphabet (`b58decode` raises `ValueError` there). -/
def b58Val (c : Char) : Option Nat :=
  let i := b58Alphabet.indexOf c
  if i < b58Alphabet.length then some i else none

/-- `int.from_bytes(v, byteorder='big')`. -/
def ofBytesBE (v : List Nat) : Nat := v.foldl (fun a d => a * 256 + d) 0

/-- Big-endian base-`b` digits of `n` (empty for `0`): the repeated
`divmod` loop of `b58encode_int` / `b58decode`, which prepends each
extracted digit. -/
def natDigitsBE (b n : Nat) : List Nat := (Nat.digits b n).reverse

/-- `Option`-valued `List.map`, modelling a Python loop that raises on
the first invalid element. -/
def mapOpt (f : α → Option β) : List α → Option (List β)
  | [] => some []
  | x :: xs =>
    match f x, mapOpt f xs with
    | some y, some ys => some (y :: ys)
    | _, _ => none

/-- `base58.b58encode` on a byte list: strip leading zero bytes, encode
the remaining big-endian integer in base58, and prepend one `'1'` per
stripped zero byte. -/
def b58encode (v : List Nat) : List Char :=
  let stripped := v.dropWhile (· == 0)
  let zeros := v.length - stripped.length
  List.replicate zeros '1' ++ (natDigitsBE 58 (ofBytesBE stripped)).map b58Char

/-- `base58.b58decode` on a char list: strip leading `'1'` characters,
fold the remaining base58 digits into an integer, expand it into
big-endian bytes, and prepend one zero byte per stripped `'1'`. -/
def b58decode (v : List Char) : Option (List Nat) :=
  let stripped := v.dropWhile (· == '1')
  let ones := v.length - stripped.length
  match mapOpt b58Val stripped with
  | none => none
  | some ds =>
    some (List.replicate ones 0 ++ natDigitsBE 256 (ds.foldl (fun a d => a * 58 + d) 0))

/-! ### `utils.py` -/

/-- `str.startswith("0x")` stripping in `ipfs_32_bytes_to_qm_hash`. -/
def strip0x (s : List Char) : List Char :=
  if s.take 2 = ['0', 'x'] then s.drop 2 else s

/-- `utils.ipfs_32_bytes_to_qm_hash`: strip an optional `0x` prefix,
hex-decode, prepend bytes `0x12 0x20` (`b"\x12 "`) and base58-encode.
`none` models the `ValueError` of `bytes.fromhex` on invalid input. -/
def ipfs_32_bytes_to_qm_hash (s : String) : Option String :=
  (hexDecode (strip0x s.data)).map fun bs => String.mk (b58encode (18 :: 32 :: bs))

/-- `utils.ipfs_qm_hash_to_32_bytes`: base58-decode, hex-encode, drop the
first four hex characters (two bytes) and prepend `"0x"`. -/
def ipfs_qm_hash_to_32_bytes (q : String) : Option String :=
  (b58decode q.data).map fun bs => String.mk ('0' :: 'x' :: (hexEncode bs).drop 4)

/-- UTF-8 bytes of a string (`topic.encode('utf-8')`). -/
def utf8Bytes (s : String) : List Nat := s.toUTF8.toList.map (·.toNat)

/-- Oracle for `hashlib.sha256(...).digest()`: an arbitrary function
producing 32 bytes.  The library delegates hashing to `hashlib`; only
the digest length and byte range are fixed here. -/
structure Sha256 where
  digest : List Nat → List Nat
  digest_len : ∀ b, (digest b).length = 32
  digest_lt : ∀ b x, x ∈ digest b → x < 256

/-- `utils.dt_encode_topic`: `"0x"` followed by the lowercase sha256 hex
digest of the UTF-8 encoded topic. -/
def dt_encode_topic (h : Sha256) (topic : String) : String :=
  "0x" ++ String.mk (hexEncode (h.digest (utf8Bytes topic)))

/-! ### `decorators.py` -/

/-- Connection state mutated by `check_socket_opened`: the interface
handle of the instance, plus a counter of how many times
`open_interface` has run (fresh handles are drawn from an open
sequence). -/
structure IfaceState (ι : Type) where
  interface : Option ι
  opens : Nat

/-- The `check_socket_opened` decorator.  `openSeq` models the
`SubstrateInterface` constructor (its successive results), `f` the
wrapped call on a given handle.  Returns the call result, the final
state, and the list of handles `f` was attempted on (ghost trace). -/
def check_socket_opened {ι α : Type} (openSeq : Nat → ι) (f : ι → Except PyExc α)
    (st : IfaceState ι) : Except PyExc α × IfaceState ι × List ι :=
  let p : ι × IfaceState ι :=
    match st.interface with
    | none => (openSeq st.opens, ⟨some (openSeq st.opens), st.opens + 1⟩)
    | some i => (i, st)
  match f p.1 with
  | .ok a => (.ok a, p.2, [p.1])
  | .error e =>
    if isClosedConnErr e then
      let i1 := openSeq p.2.opens
      (f i1, ⟨some i1, p.2.opens + 1⟩, [p.1, i1])
    else (.error e, p.2, [p.1])

/-! ### `classes/account.py` -/

/-- A substrate keypair, as produced by the external client library.
Signing is an oracle function of the message bytes. -/
structure Keypair where
  ss58_address : String
  sign : List Nat → List Nat

/-- `Account`: node connection parameters and the optional keypair. -/
structure Account where
  remote_ws : String
  keypair : Option Keypair

/-- `Account.__init__`: the keypair is derived only when a truthy seed
is passed (`if seed:` — `None` and `""` both leave `keypair = None`).
`create_keypair` is the external key-derivation oracle. -/
def Account.init (seed : Option String) (remote_ws : String)
    (create_keypair : String → Keypair) : Account :=
  ⟨remote_ws,
    match seed with
    | none => none
    | some s => if s = "" then none else some (create_keypair s)⟩

/-- `Account.get_address`: raises `NoPrivateKeyException` when no keypair
is present, else returns the ss58 address. -/
def Account.get_address (a : Account) : Except PyExc String :=
  match a.keypair with
  | none => .error .noPrivateKey
  | some k => .ok k.ss58_address

/-! ### `classes/service_functions.py` -/

/-- A composed `GenericCall`: what `interface.compose_call` received. -/
structure ComposedCall where
  call_module : String
  call_function : String
  call_params : Option PyValue

/-- `ServiceFunctions` configuration set in `__init__`. -/
structure SFConfig where
  keypair : Option Keypair
  wait_for_inclusion : Bool
  return_block_num : Bool
  rws_sub_owner : Option String

/-- `ServiceFunctions.__init__` from an `Account`. -/
def ServiceFunctions.init (a : Account) (wait_for_inclusion : Bool)
    (return_block_num : Bool) (rws_sub_owner : Option String) : SFConfig :=
  ⟨a.keypair, wait_for_inclusion, return_block_num, rws_sub_owner⟩

/-- Python truthiness of `self.rws_sub_owner` (`if not self.rws_sub_owner:`):
`None` and the empty string are both falsy. -/
def truthyOptStr : Option String → Bool
  | none => false
  | some s => s ≠ ""

/-- The nested dictionary composed for an RWS `call` envelope
(`service_functions.py` lines 119-126). -/
def rwsEnvelope (owner call_module call_function : String)
    (params : Option PyValue) : PyValue :=
  .pyDict
    [("subscription_id", .pyStr owner),
     ("call",
      .pyDict
        [("call_module", .pyStr call_module),
         ("call_function", .pyStr call_function),
         ("call_args", match params with | none => .pyNone | some v => v)])]

/-- Call composition inside `ServiceFunctions.extrinsic`: a direct call
with `params or None` when `rws_sub_owner` is falsy, otherwise an
`RWS.call` envelope wrapping the original module/function/args. -/
def composeExtrinsicCall (rws_sub_owner : Option String)
    (call_module call_function : String) (params : Option PyValue) : ComposedCall :=
  if truthyOptStr rws_sub_owner then
    ⟨"RWS", "call", some (rwsEnvelope (rws_sub_owner.getD "") call_module call_function params)⟩
  else
    ⟨call_module, call_function, pyOrNone params⟩

/-- An `ExtrinsicReceipt` returned by `submit_extrinsic`. -/
structure Receipt where
  extrinsic_hash : String
  is_success : Bool
  block_hash : String
  extrinsic_idx : Nat

/-- The remote node, as seen through the substrate client: submitting a
signed call yields a receipt; block hashes resolve to block numbers. -/
structure ChainOracle where
  submit : ComposedCall → Option Int → Receipt
  get_block_number : String → Nat

/-- Return value of `ServiceFunctions.extrinsic`: the extrinsic hash,
optionally paired with a `"<block_number>-<extrinsic_idx>"` string. -/
inductive ExtrinsicRet where
  | hash (h : String) : ExtrinsicRet
  | hashBlock (h : String) (blockIdx : String) : ExtrinsicRet

/-- `ServiceFunctions.extrinsic`.  Besides the result (or the raised
exception), the second component records what was signed and submitted:
the composed call together with the transaction nonce passed to
`create_signed_extrinsic` (`none` when nothing was submitted). -/
def ServiceFunctions.extrinsic (cfg : SFConfig) (ch : ChainOracle)
    (call_module call_function : String) (params : Option PyValue)
    (nonce : Option Int) :
    Except PyExc ExtrinsicRet × Option (ComposedCall × Option Int) :=
  match cfg.keypair with
  | none => (.error .noPrivateKey, none)
  | some _ =>
    let call := composeExtrinsicCall cfg.rws_sub_owner call_module call_function params
    let receipt := ch.submit call nonce
    let submitted := some (call, nonce)
    if cfg.wait_for_inclusion then
      if receipt.is_success = false then (.error .extrinsicFailed, submitted)
      else if cfg.return_block_num then
        (.ok (.hashBlock receipt.extrinsic_hash
          (Nat.repr (ch.get_block_number receipt.block_hash) ++ "-"
            ++ Nat.repr receipt.extrinsic_idx)), submitted)
      else (.ok (.hash receipt.extrinsic_hash), submitted)
    else (.ok (.hash receipt.extrinsic_hash), submitted)

/-! ### `classes/datalog.py` -/

/-- `Datalog.erase`: the `nonce` argument is passed as the third
positional argument of `ServiceFunctions.extrinsic`, which is `params`;
the transaction `nonce` parameter of `extrinsic` is left at its default
`None`. -/
def Datalog.erase (cfg : SFConfig) (ch : ChainOracle) (nonce : Option Int) :
    Except PyExc ExtrinsicRet × Option (ComposedCall × Option Int) :=
  ServiceFunctions.extrinsic cfg ch "Datalog" "erase" (nonce.map .pyInt) none

/-- Chain storage consulted by `Datalog.get_item` /
`RobonomicsInterface.fetch_datalog`: the per-account
`DatalogIndex` `{start, end}` pair and the `DatalogItem`
`(timestamp, payload)` records. -/
structure DatalogChainState where
  datalogIndex : String → Nat × Nat
  datalogItem : String → Int → Int × String

/-- `Datalog.get_item` (same logic as `RobonomicsInterface.fetch_datalog`):
`if index:` is a truthiness test, so `None` *and* `0` both select the
latest-record branch, which uses `DatalogIndex.end - 1` and returns
`None` when that is `-1`; a truthy index fetches the record directly and
returns `None` when its timestamp is `0`. -/
def Datalog.get_item (ch : DatalogChainState) (address : String)
    (index : Option Int) : Option (Int × String) :=
  if (match index with | some i => i != 0 | none => false) then
    let record := ch.datalogItem address (index.getD 0)
    if record.1 ≠ 0 then some record else none
  else
    let index_latest : Int := ((ch.datalogIndex address).2 : Int) - 1
    if index_latest ≠ -1 then some (ch.datalogItem address index_latest) else none

/-! ### `classes/liability.py` -/

/-- `KEYPAIR_TYPE` list from `liability.py`. -/
def KEYPAIR_TYPE : List String := ["Ed25519", "Sr25519", "Ecdsa"]

/-- The backward scan of `Liability.create` over a descending index
list: return the first index satisfying `matches`, or the default. -/
def scanBack (pred : Nat → Bool) : List Nat → Nat → Nat
  | [], dflt => dflt
  | i :: rest, dflt => if pred i then i else scanBack pred rest dflt

/-- Index computation of `Liability.create` after submission:
`liability_total = get_latest_index() or 1`; `index` defaults to
`liability_total - 1` and the loop walks `reversed(range(liability_total))`
breaking at the first index whose agreement matches. -/
def createIndex (latest : Option Nat) (pred : Nat → Bool) : Nat :=
  let total := match latest with | none => 1 | some t => if t = 0 then 1 else t
  scanBack pred ((List.range total).reverse) (total - 1)

/-- `Liability.create`, abstracted over the chain: `sigAt i k` is
`get_agreement(i)["promisee_signature"][k]`, `txHash` the hash returned
by the (accepted) creation extrinsic.  Returns the `(index, tx_hash)`
tuple; the index is found by matching the promisee signature under
`KEYPAIR_TYPE[promisee_signature_crypto_type]`. -/
def Liability.create (latest : Option Nat) (sigAt : Nat → String → String)
    (promisee_signature_crypto_type : Nat) (promisee_params_signature : String)
    (txHash : String) : Nat × String :=
  (createIndex latest
    (fun i =>
      sigAt i (KEYPAIR_TYPE.getD promisee_signature_crypto_type "")
        == promisee_params_signature),
   txHash)

/-- Oracle for the external SCALE encoders used in liability signing. -/
structure ScaleCodec where
  encH256 : String → List Nat
  encCompactBalance : Int → List Nat
  encU32 : Int → List Nat

/-- `str.startswith("Qm")` conversion shared by the liability methods:
a `Qm...` hash is converted with `ipfs_qm_hash_to_32_bytes` (whose
`ValueError` on bad base58 propagates). -/
def qmNormalize (h : String) : Except PyExc String :=
  if h.data.take 2 = ['Q', 'm'] then
    match ipfs_qm_hash_to_32_bytes h with
    | some t => .ok t
    | none => .error .valueErr
  else .ok h

/-- `Liability.sign_liability`: raises `NoPrivateKeyException` without a
keypair; otherwise signs `H256(technics) ++ Compact<Balance>(economics)`
and returns the `0x`-prefixed hex signature. -/
def Liability.sign_liability (kp : Option Keypair) (sc : ScaleCodec)
    (technics_hash : String) (economics : Int) : Except PyExc String :=
  match kp with
  | none => .error .noPrivateKey
  | some k =>
    (qmNormalize technics_hash).map fun t =>
      "0x" ++ String.mk (hexEncode (k.sign (sc.encH256 t ++ sc.encCompactBalance economics)))

/-- `Liability.sign_report`: raises `NoPrivateKeyException` without a
keypair; otherwise signs `U32(index) ++ H256(report_hash)`. -/
def Liability.sign_report (kp : Option Keypair) (sc : ScaleCodec)
    (index : Int) (report_hash : String) : Except PyExc String :=
  match kp with
  | none => .error .noPrivateKey
  | some k =>
    (qmNormalize report_hash).map fun r =>
      "0x" ++ String.mk (hexEncode (k.sign (sc.encU32 index ++ sc.encH256 r)))

/-! ### `classes/subscriptions.py` -/

/-- Event attributes as delivered by the substrate client: either a list
or a dict (whose values `_target_address_in_event` extracts). -/
inductive EventAttrs where
  | alist (l : List String) : EventAttrs
  | adict (d : List (String × String)) : EventAttrs

/-- `list(event["attributes"].values())` normalization. -/
def attrsList : EventAttrs → List String
  | .alist l => l
  | .adict d => d.map (·.2)

/-- One decoded chain event. -/
structure ChainEvent where
  event_id : String
  attributes : EventAttrs
  extrinsic_idx : Nat

/-- The `addr` argument of `Subscriber`: absent, a single address string,
or a list of address strings. -/
inductive AddrFilter where
  | noneF : AddrFilter
  | single (s : String) : AddrFilter
  | many (l : List String) : AddrFilter
deriving DecidableEq

/-- Python truthiness of `self._addr` (`if self._addr and ...`). -/
def truthyAddr : AddrFilter → Bool
  | .noneF => false
  | .single s => s ≠ ""
  | .many l => l ≠ []

/-- The Python `in` test `str(event["attributes"][idx]) in self._addr`:
list membership for a list filter, *substring* containment for a single
string filter. -/
def pyIn (x : String) : AddrFilter → Bool
  | .noneF => false
  | .single s => decide (List.IsInfix x.data s.data)
  | .many l => l.contains x

/-- `Subscriber._target_address_in_event`: events `NewRecord`,
`TopicChanged` and `NewDevices` are matched on attribute 0, all others
on attribute 1. -/
def targetAddressInEvent (addr : AddrFilter) (e : ChainEvent) : Bool :=
  let attrs := attrsList e.attributes
  if ["NewRecord", "TopicChanged", "NewDevices"].contains e.event_id then
    pyIn (attrs.getD 0 "") addr
  else
    pyIn (attrs.getD 1 "") addr

/-- Whether `Subscriber._event_callback` invokes the user handler for
one event of the fetched event list: updates number `0` and a set cancel
flag process nothing; otherwise the event id must be in the subscribed
set, and a truthy address filter must pass `_target_address_in_event`. -/
def eventCallbackInvoked (subscribed : List String) (addr : AddrFilter)
    (update_nr : Nat) (cancel : Bool) (e : ChainEvent) : Bool :=
  if update_nr = 0 then false
  else if cancel then false
  else if subscribed.contains e.event_id then
    if truthyAddr addr && !(targetAddressInEvent addr e) then false else true
  else false

/-! ### Concrete sample values used to instantiate oracles -/

/-- A sample keypair (the signing oracle is irrelevant for these uses). -/
def kp0 : Keypair := ⟨"4FakeAddress", fun _ => []⟩

/-- A sample chain oracle: every submission succeeds with hash `"hash"`
in block `"bh"` at extrinsic index 2; every block has number 5. -/
def ch0 : ChainOracle := ⟨fun _ _ => ⟨"hash", true, "bh", 2⟩, fun _ => 5⟩

/-- A sample datalog chain: index range `{start 0, end 5}`; the record at
index 4 is `(7, "x")`, all others carry timestamp `0`. -/
def dlch0 : DatalogChainState :=
  ⟨fun _ => (0, 5), fun _ i => if i = 4 then (7, "x") else (0, "")⟩

/-- A (degenerate but well-typed) digest oracle: constant 32 zero bytes. -/
def sha0 : Sha256 where
  digest := fun _ => List.replicate 32 0
  digest_len := fun _ => by simp
  digest_lt := fun _ x hx => by
    have := List.eq_of_mem_replicate hx
    omega

/-- There are infinitely many strings (needed for the pigeonhole argument
about digest collisions). -/
instance : Infinite String :=
  Infinite.of_injective (fun n : Nat => String.mk (List.replicate n 'a'))
    (fun a b h => by
      have hlen := congrArg (fun s : String => s.data.length) h
      simpa using hlen)

/-! ### Helper lemmas: hex -/

theorem hexChars_round_all :
    lcHexChars.all
      (fun c => decide ((hexVal c).getD 99 < 16) && (hexChar ((hexVal c).getD 99) == c)) = true := by
  decide

theorem hexVal_round {c : Char} (hc : c ∈ lcHexChars) :
    ∃ v, hexVal c = some v ∧ v < 16 ∧ hexChar v = c := by
  have h := List.all_eq_true.mp hexChars_round_all c hc
  rcases hv : hexVal c with _ | v
  · rw [hv] at h
    simp at h
  · rw [hv] at h
    simp at h
    exact ⟨v, rfl, h.1, h.2⟩

theorem hexDecode_spec :
    ∀ (n : Nat) (h : List Char), h.length = 2 * n → (∀ c ∈ h, c ∈ lcHexChars) →
      ∃ bs, hexDecode h = some bs ∧ hexEncode bs = h ∧ ∀ x ∈ bs, x < 256 := by
  intro n
  induction n with
  | zero =>
    intro h hl _
    have : h = [] := List.eq_nil_of_length_eq_zero (by omega)
    subst this
    exact ⟨[], rfl, rfl, by simp⟩
  | succ n ih =>
    intro h hl hall
    cases h with
    | nil => simp at hl
    | cons c1 t =>
      cases t with
      | nil => simp at hl; omega
      | cons c2 rest =>
        obtain ⟨v1, hv1, hv1lt, hc1⟩ := hexVal_round (hall c1 (by simp))
        obtain ⟨v2, hv2, hv2lt, hc2⟩ := hexVal_round (hall c2 (by simp))
        obtain ⟨bs, hbs, henc, hlt⟩ :=
          ih rest (by simp at hl; omega) (fun c hc => hall c (by simp [hc]))
        refine ⟨(16 * v1 + v2) :: bs, ?_, ?_, ?_⟩
        · simp [hexDecode, hv1, hv2, hbs]
        · have hdiv : (16 * v1 + v2) / 16 = v1 := by omega
          have hmod : (16 * v1 + v2) % 16 = v2 := by omega
          simp [hexEncode, henc, hdiv, hmod, hc1, hc2]
        · intro x hx
          rcases List.mem_cons.mp hx with hx' | hx'
          · omega
          · exact hlt x hx'

/-! ### Helper lemmas: base58 -/

theorem b58_val_char : ∀ d < 58, b58Val (b58Char d) = some d := by decide

theorem b58Char_ne_one : ∀ d < 58, d ≠ 0 → b58Char d ≠ '1' := by decide

theorem mapOpt_b58Char : ∀ ds : List Nat, (∀ x ∈ ds, x < 58) →
    mapOpt b58Val (ds.map b58Char) = some ds := by
  intro ds
  induction ds with
  | nil => intro _; rfl
  | cons d t ih =>
    intro hall
    have hd := b58_val_char d (hall d (by simp))
    have ht := ih (fun x hx => hall x (by simp [hx]))
    simp [mapOpt, hd, ht]

theorem foldl_mul_add (b : Nat) :
    ∀ (ds : List Nat) (a : Nat),
      ds.foldl (fun x y => x * b + y) a = a * b ^ ds.length + Nat.ofDigits b ds.reverse := by
  intro ds
  induction ds with
  | nil => intro a; simp [Nat.ofDigits_nil]
  | cons d t ih =>
    intro a
    rw [List.foldl_cons, ih (a * b + d), List.reverse_cons, Nat.ofDigits_append]
    simp [Nat.ofDigits_singleton, pow_succ]
    ring

theorem foldl_base_ge (b : Nat) :
    ∀ (ds : List Nat) (a : Nat), 1 ≤ b → 1 ≤ a →
      1 ≤ ds.foldl (fun x y => x * b + y) a := by
  intro ds
  induction ds with
  | nil => intro a _ ha; simpa using ha
  | cons d t ih =>
    intro a hb ha
    rw [List.foldl_cons]
    have h1 : 1 * 1 ≤ a * b := Nat.mul_le_mul ha hb
    exact ih _ hb (by omega)

theorem b58decode_b58encode (d : Nat) (rest : List Nat) (hd : d ≠ 0)
    (hall : ∀ x ∈ d :: rest, x < 256) :
    b58decode (b58encode (d :: rest)) = some (d :: rest) := by
  have hd1 : 1 ≤ d := Nat.one_le_iff_ne_zero.mpr hd
  have hN : ofBytesBE (d :: rest) ≠ 0 := by
    have h0 : ofBytesBE (d :: rest) = rest.foldl (fun x y => x * 256 + y) d := by
      simp [ofBytesBE]
    have h1 := foldl_base_ge 256 rest d (by omega) hd1
    omega
  have hLne : Nat.digits 58 (ofBytesBE (d :: rest)) ≠ [] :=
    Nat.digits_ne_nil_iff_ne_zero.mpr hN
  obtain ⟨l', x, hconcat⟩ :=
    (List.eq_nil_or_concat (Nat.digits 58 (ofBytesBE (d :: rest)))).resolve_left hLne
  have hxeq : x = (Nat.digits 58 (ofBytesBE (d :: rest))).getLast hLne := by
    have h1 : (Nat.digits 58 (ofBytesBE (d :: rest))).getLast? = some x := by
      rw [hconcat, List.concat_eq_append]; exact List.getLast?_concat _
    have h2 := List.getLast?_eq_getLast (Nat.digits 58 (ofBytesBE (d :: rest))) hLne
    rw [h1] at h2
    exact Option.some.inj h2
  have hx0 : x ≠ 0 := by
    rw [hxeq]
    exact Nat.getLast_digit_ne_zero 58 hN
  have hxlt : x < 58 := Nat.digits_lt_base (by norm_num) (by rw [hconcat]; simp)
  have hrev : natDigitsBE 58 (ofBytesBE (d :: rest)) = x :: l'.reverse := by
    simp [natDigitsBE, hconcat]
  have henc : b58encode (d :: rest) = (natDigitsBE 58 (ofBytesBE (d :: rest))).map b58Char := by
    simp [b58encode, List.dropWhile_cons, hd]
  have hds_lt : ∀ y ∈ natDigitsBE 58 (ofBytesBE (d :: rest)), y < 58 := by
    intro y hy
    rw [natDigitsBE, List.mem_reverse] at hy
    exact Nat.digits_lt_base (by norm_num) hy
  have hmapopt := mapOpt_b58Char _ hds_lt
  have hfold :
      (natDigitsBE 58 (ofBytesBE (d :: rest))).foldl (fun a y => a * 58 + y) 0
        = ofBytesBE (d :: rest) := by
    rw [foldl_mul_add]
    simp [natDigitsBE, Nat.ofDigits_digits]
  have hN256 : natDigitsBE 256 (ofBytesBE (d :: rest)) = d :: rest := by
    have hN' : ofBytesBE (d :: rest) = Nat.ofDigits 256 ((d :: rest).reverse) := by
      rw [ofBytesBE, foldl_mul_add]
      simp
    rw [natDigitsBE, hN', Nat.digits_ofDigits 256 (by norm_num) _ ?_ ?_]
    · simp
    · intro y hy
      exact hall y (List.mem_reverse.mp hy)
    · intro hne
      have h1 : ((d :: rest).reverse).getLast? = some d := by
        rw [List.reverse_cons]; exact List.getLast?_concat _
      have h2 := List.getLast?_eq_getLast ((d :: rest).reverse) hne
      rw [h1] at h2
      rw [← Option.some.inj h2]
      exact hd
  have hdrop :
      ((natDigitsBE 58 (ofBytesBE (d :: rest))).map b58Char).dropWhile (· == '1')
        = (natDigitsBE 58 (ofBytesBE (d :: rest))).map b58Char := by
    have hbeq : (b58Char x == '1') = false := by
      simpa using b58Char_ne_one x hxlt hx0
    rw [hrev]
    simp [List.dropWhile_cons, hbeq]
  rw [henc]
  simp only [b58decode, hdrop, hmapopt, hfold, hN256]
  simp

/-- Shared computation: on any input whose (optionally `0x`-stripped)
remainder is an even-length lowercase hex string, the composition of
`ipfs_32_bytes_to_qm_hash` and `ipfs_qm_hash_to_32_bytes` returns the
stripped remainder with a `0x` prefix re-attached. -/
theorem round_trip_core (x : List Char) (n : Nat)
    (hall : ∀ c ∈ strip0x x, c ∈ lcHexChars) (hlen : (strip0x x).length = 2 * n) :
    (ipfs_32_bytes_to_qm_hash (String.mk x)).bind ipfs_qm_hash_to_32_bytes
      = some (String.mk ('0' :: 'x' :: strip0x x)) := by
  obtain ⟨bs, hbs, hencbs, hlt⟩ := hexDecode_spec n (strip0x x) hlen hall
  have hbounds : ∀ y ∈ 18 :: 32 :: bs, y < 256 := by
    intro y hy
    rcases List.mem_cons.mp hy with h | hy2
    · omega
    · rcases List.mem_cons.mp hy2 with h | h
      · omega
      · exact hlt y h
  have hb58 := b58decode_b58encode 18 (32 :: bs) (by omega) hbounds
  have hhex : hexEncode (18 :: 32 :: bs) = '1' :: '2' :: '2' :: '0' :: hexEncode bs := by
    have e1 : hexChar (18 / 16) = '1' := by decide
    have e2 : hexChar (18 % 16) = '2' := by decide
    have e3 : hexChar (32 / 16) = '2' := by decide
    have e4 : hexChar (32 % 16) = '0' := by decide
    simp [hexEncode, e1, e2, e3, e4]
  have h1 : ipfs_32_bytes_to_qm_hash (String.mk x)
      = some (String.mk (b58encode (18 :: 32 :: bs))) := by
    simp only [ipfs_32_bytes_to_qm_hash]
    rw [hbs]
    rfl
  have hdrop4 : (hexEncode (18 :: 32 :: bs)).drop 4 = strip0x x := by
    rw [hhex]
    simpa using hencbs
  have h2 : ipfs_qm_hash_to_32_bytes (String.mk (b58encode (18 :: 32 :: bs)))
      = some (String.mk ('0' :: 'x' :: strip0x x)) := by
    simp only [ipfs_qm_hash_to_32_bytes]
    rw [hb58]
    simp [hdrop4]
  rw [h1]
  exact h2

/-- C2 (amended): for every input of the form `"0x"` followed by 64
lowercase hex characters, `ipfs_qm_hash_to_32_bytes` inverts
`ipfs_32_bytes_to_qm_hash` exactly. -/
theorem c2_round_trip (h : List Char) (hall : ∀ c ∈ h, c ∈ lcHexChars)
    (hlen : h.length = 64) :
    (ipfs_32_bytes_to_qm_hash (String.mk ('0' :: 'x' :: h))).bind ipfs_qm_hash_to_32_bytes
      = some (String.mk ('0' :: 'x' :: h)) := by
  have hstrip : strip0x ('0' :: 'x' :: h) = h := by simp [strip0x]
  have hcore := round_trip_core ('0' :: 'x' :: h) 32
    (by rw [hstrip]; exact hall) (by rw [hstrip]; omega)
  rwa [hstrip] at hcore

/-- C2 witness: the round trip at the concrete 32-byte value
`0x0000...00`. -/
theorem c2_round_trip_witness :
    (∀ c ∈ List.replicate 64 '0', c ∈ lcHexChars) ∧
    (List.replicate 64 '0').length = 64 ∧
    (ipfs_32_bytes_to_qm_hash (String.mk ('0' :: 'x' :: List.replicate 64 '0'))).bind
        ipfs_qm_hash_to_32_bytes
      = some (String.mk ('0' :: 'x' :: List.replicate 64 '0')) :=
  ⟨by decide, by decide, c2_round_trip _ (by decide) (by decide)⟩

/-- C2 counterexample: the claim as stated fails on the valid 32-byte
hex string of 64 `'0'` characters *without* the (optional) `0x` prefix:
the round trip returns the `0x`-prefixed lowercase form, not the input
itself. -/
theorem c2_round_trip_counterexample :
    (ipfs_32_bytes_to_qm_hash (String.mk (List.replicate 64 '0'))).bind
        ipfs_qm_hash_to_32_bytes
      = some (String.mk ('0' :: 'x' :: List.replicate 64 '0')) ∧
    (ipfs_32_bytes_to_qm_hash (String.mk (List.replicate 64 '0'))).bind
        ipfs_qm_hash_to_32_bytes
      ≠ some (String.mk (List.replicate 64 '0')) := by
  have hstrip : strip0x (List.replicate 64 '0') = List.replicate 64 '0' := by decide
  have hcore := round_trip_core (List.replicate 64 '0') 32
    (by rw [hstrip]; decide) (by rw [hstrip]; decide)
  rw [hstrip] at hcore
  exact ⟨hcore, by rw [hcore]; decide⟩

/-! ### Helper lemmas: the backward scan of `Liability.create` -/

theorem scanBack_range_spec (pred : Nat → Bool) :
    ∀ (t dflt : Nat), (∃ i, i < t ∧ pred i = true) →
      pred (scanBack pred (List.range t).reverse dflt) = true ∧
      scanBack pred (List.range t).reverse dflt < t ∧
      ∀ j, scanBack pred (List.range t).reverse dflt < j → j < t → pred j = false := by
  intro t
  induction t with
  | zero =>
    intro dflt h
    obtain ⟨i, hi, _⟩ := h
    omega
  | succ t ih =>
    intro dflt h
    obtain ⟨i, hi, hpi⟩ := h
    have hrw : (List.range (t + 1)).reverse = t :: (List.range t).reverse := by
      rw [List.range_succ]
      simp
    rw [hrw]
    by_cases hpt : pred t = true
    · simp [scanBack, hpt]
      intro j h1 h2
      omega
    · have hpt' : pred t = false := by
        cases hq : pred t
        · rfl
        · exact absurd hq hpt
      have hit : i < t := by
        rcases Nat.lt_succ_iff_lt_or_eq.mp hi with h | h
        · exact h
        · subst h
          rw [hpi] at hpt'
          simp at hpt'
      obtain ⟨h1, h2, h3⟩ := ih dflt ⟨i, hit, hpi⟩
      rw [scanBack, hpt']
      simp only [Bool.false_eq_true, if_false]
      refine ⟨h1, by omega, ?_⟩
      intro j hj1 hj2
      by_cases hjt : j = t
      · subst hjt
        exact hpt'
      · exact h3 j hj1 (by omega)

/-- C1: given that `get_latest_index` reports `total` liabilities and
that some on-chain agreement with index below `total` has the supplied
promisee signature under the supplied crypto type (the chain accepted
the creation extrinsic), the index in the tuple returned by
`Liability.create` is the index of an agreement carrying that promisee
signature, and it is the *first* such index when scanning backward from
`total - 1` (no larger index below `total` matches); the second tuple
component is the creation transaction hash. -/
theorem c1_liability_create_index (latest : Option Nat) (total : Nat)
    (sigAt : Nat → String → String) (ct : Nat) (sig txHash : String)
    (hlatest : latest = some total)
    (hex : ∃ i, i < total ∧
      (sigAt i (KEYPAIR_TYPE.getD ct "") == sig) = true) :
    ((sigAt (Liability.create latest sigAt ct sig txHash).1 (KEYPAIR_TYPE.getD ct "") == sig)
        = true ∧
      (Liability.create latest sigAt ct sig txHash).1 < total ∧
      ∀ j, (Liability.create latest sigAt ct sig txHash).1 < j → j < total →
        (sigAt j (KEYPAIR_TYPE.getD ct "") == sig) = false) ∧
    (Liability.create latest sigAt ct sig txHash).2 = txHash := by
  subst hlatest
  have htotal : total ≠ 0 := by
    obtain ⟨i, hi, _⟩ := hex
    omega
  have hred : (Liability.create (some total) sigAt ct sig txHash).1
      = scanBack (fun i => sigAt i (KEYPAIR_TYPE.getD ct "") == sig)
          (List.range total).reverse (total - 1) := by
    simp [Liability.create, createIndex, htotal]
  rw [hred]
  obtain ⟨h1, h2, h3⟩ := scanBack_range_spec
    (fun i => sigAt i (KEYPAIR_TYPE.getD ct "") == sig) total (total - 1) hex
  exact ⟨⟨h1, h2, h3⟩, rfl⟩

/-- C1 witness: a chain with three agreements whose only matching
promisee signature sits at index 1. -/
theorem c1_liability_create_index_witness :
    ((some 3 : Option Nat) = some 3) ∧
    (∃ i, i < 3 ∧
      (((fun i _ => if i = 1 then "s" else "q") : Nat → String → String) i
          (KEYPAIR_TYPE.getD 1 "") == "s") = true) ∧
    ((((fun i _ => if i = 1 then "s" else "q") : Nat → String → String)
        (Liability.create (some 3) (fun i _ => if i = 1 then "s" else "q") 1 "s" "h").1
        (KEYPAIR_TYPE.getD 1 "") == "s") = true ∧
      (Liability.create (some 3) (fun i _ => if i = 1 then "s" else "q") 1 "s" "h").1 < 3 ∧
      ∀ j, (Liability.create (some 3) (fun i _ => if i = 1 then "s" else "q") 1 "s" "h").1 < j →
        j < 3 →
        (((fun i _ => if i = 1 then "s" else "q") : Nat → String → String) j
            (KEYPAIR_TYPE.getD 1 "") == "s") = false) ∧
    (Liability.create (some 3) (fun i _ => if i = 1 then "s" else "q") 1 "s" "h").2 = "h" := by
  refine ⟨rfl, ⟨1, by norm_num, by decide⟩, ?_⟩
  exact c1_liability_create_index (some 3) 3
    (fun i _ => if i = 1 then "s" else "q") 1 "s" "h" rfl ⟨1, by norm_num, by decide⟩

/-! ### Helper lemmas: extrinsic submission -/

theorem extrinsic_submitted (cfg : SFConfig) (ch : ChainOracle) (m f : String)
    (p : Option PyValue) (n : Option Int) (kp : Keypair) (hkp : cfg.keypair = some kp) :
    (ServiceFunctions.extrinsic cfg ch m f p n).2
      = some (composeExtrinsicCall cfg.rws_sub_owner m f p, n) := by
  simp only [ServiceFunctions.extrinsic, hkp]
  by_cases hw : cfg.wait_for_inclusion = true
  · by_cases hs : (ch.submit (composeExtrinsicCall cfg.rws_sub_owner m f p) n).is_success = false
    · simp [hw, hs]
    · by_cases hr : cfg.return_block_num = true
      · simp [hw, hs, hr]
      · simp [hw, hs, hr]
  · simp [hw]

/-- C3: whenever `ServiceFunctions.extrinsic` has a keypair and submits
(so a receipt comes back), then: with `wait_for_inclusion` set and a
failed receipt it raises `ExtrinsicFailedException`; with
`wait_for_inclusion` and `return_block_num` both set and a successful
receipt it returns the pair of the extrinsic hash and the
`"<block_number>-<extrinsic_idx>"` string; in every other case it
returns the extrinsic hash alone. -/
theorem c3_extrinsic_result (kp : Keypair) (w rbn : Bool) (rws : Option String)
    (ch : ChainOracle) (m f : String) (p : Option PyValue) (n : Option Int) :
    (w = true → (ch.submit (composeExtrinsicCall rws m f p) n).is_success = false →
      (ServiceFunctions.extrinsic ⟨some kp, w, rbn, rws⟩ ch m f p n).1
        = .error .extrinsicFailed) ∧
    (w = true → (ch.submit (composeExtrinsicCall rws m f p) n).is_success = true →
      rbn = true →
      (ServiceFunctions.extrinsic ⟨some kp, w, rbn, rws⟩ ch m f p n).1
        = .ok (.hashBlock (ch.submit (composeExtrinsicCall rws m f p) n).extrinsic_hash
            (Nat.repr
                (ch.get_block_number (ch.submit (composeExtrinsicCall rws m f p) n).block_hash)
              ++ "-" ++ Nat.repr (ch.submit (composeExtrinsicCall rws m f p) n).extrinsic_idx))) ∧
    (w = false ∨ ((ch.submit (composeExtrinsicCall rws m f p) n).is_success = true ∧ rbn = false) →
      (ServiceFunctions.extrinsic ⟨some kp, w, rbn, rws⟩ ch m f p n).1
        = .ok (.hash (ch.submit (composeExtrinsicCall rws m f p) n).extrinsic_hash)) := by
  refine ⟨?_, ?_, ?_⟩
  · intro hw hfail
    simp [ServiceFunctions.extrinsic, hw, hfail]
  · intro hw hsucc hrbn
    simp [ServiceFunctions.extrinsic, hw, hsucc, hrbn]
  · intro hcase
    rcases hcase with hw | ⟨hsucc, hrbn⟩
    · simp [ServiceFunctions.extrinsic, hw]
    · cases hw2 : w
      · simp [ServiceFunctions.extrinsic, hw2]
      · simp [ServiceFunctions.extrinsic, hw2, hsucc, hrbn]

/-- C3 witness: with `wait_for_inclusion` and `return_block_num` both
set and the sample chain (success receipt, block number 5, extrinsic
index 2), the result is the hash/`"5-2"` pair. -/
theorem c3_extrinsic_result_witness :
    (true = true) ∧
    ((ch0.submit (composeExtrinsicCall none "Datalog" "record" none) none).is_success = true) ∧
    (ServiceFunctions.extrinsic ⟨some kp0, true, true, none⟩ ch0 "Datalog" "record" none none).1
      = .ok (.hashBlock "hash" (Nat.repr 5 ++ "-" ++ Nat.repr 2)) :=
  ⟨rfl, rfl,
    (c3_extrinsic_result kp0 true true none ch0 "Datalog" "record" none none).2.1 rfl rfl rfl⟩

/-- C4: the `check_socket_opened` decorator (with the wrapped call `f`,
the interface-constructor sequence `openSeq` and starting state `st`,
where `i0` is the handle the first attempt runs on and `s1` the state
after the initial ensure-open step): a missing handle is opened before
the first attempt; a successful call is returned after one attempt; a
closed-connection error triggers exactly one reopen and one retry whose
result — success or any error — is returned as is; any other error
propagates after a single attempt. -/
theorem c4_check_socket_opened {ι α : Type} (openSeq : Nat → ι) (f : ι → Except PyExc α)
    (st : IfaceState ι) (i0 : ι) (s1 : IfaceState ι)
    (hinit : (st.interface = none ∧ i0 = openSeq st.opens ∧ s1 = ⟨some i0, st.opens + 1⟩)
           ∨ (st.interface = some i0 ∧ s1 = st)) :
    (∀ a, f i0 = .ok a → check_socket_opened openSeq f st = (.ok a, s1, [i0])) ∧
    (∀ e, f i0 = .error e → isClosedConnErr e = true →
      check_socket_opened openSeq f st
        = (f (openSeq s1.opens), ⟨some (openSeq s1.opens), s1.opens + 1⟩,
            [i0, openSeq s1.opens])) ∧
    (∀ e, f i0 = .error e → isClosedConnErr e = false →
      check_socket_opened openSeq f st = (.error e, s1, [i0])) := by
  rcases hinit with ⟨hnone, hi0, hs1⟩ | ⟨hsome, hs1⟩
  · subst hi0
    subst hs1
    refine ⟨?_, ?_, ?_⟩
    · intro a ha
      simp [check_socket_opened, hnone, ha]
    · intro e he hcl
      simp [check_socket_opened, hnone, he, hcl]
    · intro e he hcl
      simp [check_socket_opened, hnone, he, hcl]
  · subst hs1
    refine ⟨?_, ?_, ?_⟩
    · intro a ha
      simp [check_socket_opened, hsome, ha]
    · intro e he hcl
      simp [check_socket_opened, hsome, he, hcl]
    · intro e he hcl
      simp [check_socket_opened, hsome, he, hcl]

/-- C4 witness: starting with no handle, a wrapped call that raises
`WebSocketConnectionClosedException` on the first (freshly opened)
handle and succeeds on the reopened one is retried exactly once and its
retry result returned; handles are `Nat`, the constructor sequence is
the identity. -/
theorem c4_check_socket_opened_witness :
    ((none : Option Nat) = none) ∧
    ((fun i => if i = 0 then Except.error PyExc.wsConnClosed else Except.ok i) 0
      = Except.error PyExc.wsConnClosed) ∧
    (isClosedConnErr PyExc.wsConnClosed = true) ∧
    check_socket_opened (fun k => k)
        (fun i => if i = 0 then Except.error PyExc.wsConnClosed else Except.ok i)
        ⟨none, 0⟩
      = (Except.ok 1, ⟨some 1, 2⟩, [0, 1]) := by
  refine ⟨rfl, rfl, rfl, ?_⟩
  have h := (c4_check_socket_opened (fun k => k)
      (fun i => if i = 0 then Except.error PyExc.wsConnClosed else Except.ok i)
      ⟨none, 0⟩ 0 ⟨some 0, 1⟩ (Or.inl ⟨rfl, rfl, rfl⟩)).2.1
      PyExc.wsConnClosed rfl rfl
  simpa using h

/-- C5: an `Account` constructed without a seed has no keypair, and each
signature-requiring operation raises `NoPrivateKeyException` before any
network interaction: `ServiceFunctions.extrinsic` returns the error with
nothing submitted, and `Account.get_address`, `Liability.sign_liability`
and `Liability.sign_report` all return the error. -/
theorem c5_no_private_key (rws_url : String) (ck : String → Keypair) (w rbn : Bool)
    (rws : Option String) (ch : ChainOracle) (m f : String) (p : Option PyValue)
    (n : Option Int) (sc : ScaleCodec) (th rh : String) (eco idx : Int) :
    (Account.init none rws_url ck).keypair = none ∧
    ServiceFunctions.extrinsic
        (ServiceFunctions.init (Account.init none rws_url ck) w rbn rws) ch m f p n
      = (.error .noPrivateKey, none) ∧
    Account.get_address (Account.init none rws_url ck) = .error .noPrivateKey ∧
    Liability.sign_liability (Account.init none rws_url ck).keypair sc th eco
      = .error .noPrivateKey ∧
    Liability.sign_report (Account.init none rws_url ck).keypair sc idx rh
      = .error .noPrivateKey := by
  refine ⟨rfl, ?_, rfl, rfl, rfl⟩
  simp [ServiceFunctions.extrinsic, ServiceFunctions.init, Account.init]

/-- C6 (amended): during a non-initial, non-cancelled update of a
`Subscriber`, the user handler is invoked for an event exactly when its
`event_id` is in the subscribed set and — if the `addr` filter is truthy
(non-empty) — the designated attribute (index 0 for `NewRecord`,
`TopicChanged`, `NewDevices`, index 1 otherwise) passes the Python `in`
test against the filter: equality to a member for a list filter, but
*substring* containment for a single-string filter; a falsy (empty)
filter skips address filtering entirely. -/
theorem c6_subscriber_filter (subscribed : List String) (addr : AddrFilter)
    (update_nr : Nat) (cancel : Bool) (e : ChainEvent)
    (haddr : addr ≠ .noneF) (hupd : update_nr ≠ 0) (hcancel : cancel = false) :
    eventCallbackInvoked subscribed addr update_nr cancel e = true
      ↔ (subscribed.contains e.event_id = true ∧
         (truthyAddr addr = true → targetAddressInEvent addr e = true)) := by
  have _ := haddr
  simp only [eventCallbackInvoked, hcancel]
  rw [if_neg hupd]
  cases hc : subscribed.contains e.event_id <;>
    cases htr : truthyAddr addr <;>
      cases htg : targetAddressInEvent addr e <;>
        simp [hc, htr, htg]

/-- C6 witness: a list filter holding the exact target address invokes
the handler for a matching `NewLaunch` event (attribute index 1). -/
theorem c6_subscriber_filter_witness :
    (AddrFilter.many ["4TargetAddr"] ≠ AddrFilter.noneF) ∧ ((1 : Nat) ≠ 0) ∧
    (eventCallbackInvoked ["NewLaunch"] (.many ["4TargetAddr"]) 1 false
        ⟨"NewLaunch", .alist ["X", "4TargetAddr"], 0⟩ = true
      ↔ ((["NewLaunch"] : List String).contains "NewLaunch" = true ∧
         (truthyAddr (.many ["4TargetAddr"]) = true →
           targetAddressInEvent (.many ["4TargetAddr"])
             ⟨"NewLaunch", .alist ["X", "4TargetAddr"], 0⟩ = true))) :=
  ⟨by decide, by decide,
    c6_subscriber_filter ["NewLaunch"] (.many ["4TargetAddr"]) 1 false
      ⟨"NewLaunch", .alist ["X", "4TargetAddr"], 0⟩ (by decide) (by decide) rfl⟩

/-- C6 counterexample: with a *single-string* filter `"4AB"`, a
`NewLaunch` event whose designated attribute is `"4A"` — a strict
substring, not equal to the target address — still invokes the handler,
because Python's `x in str` is substring containment. -/
theorem c6_subscriber_filter_counterexample :
    eventCallbackInvoked ["NewLaunch"] (.single "4AB") 1 false
        ⟨"NewLaunch", .alist ["X", "4A"], 0⟩ = true ∧
    (attrsList (EventAttrs.alist ["X", "4A"])).getD 1 "" ≠ "4AB" := by
  constructor
  · decide
  · decide

/-- C7 (amended): with a keypair present, a *non-empty* `rws_sub_owner`
makes every extrinsic submit an `RWS.call` envelope whose
`subscription_id` is the owner and whose inner call holds the original
module, function and args; with `rws_sub_owner = None` the original call
is composed directly (with falsy params replaced by `None`).  An empty
string owner is falsy in Python and also composes the call directly. -/
theorem c7_rws_envelope (kp : Keypair) (w rbn : Bool) (ch : ChainOracle)
    (m f : String) (p : Option PyValue) (n : Option Int) :
    (∀ owner : String, owner ≠ "" →
      (ServiceFunctions.extrinsic ⟨some kp, w, rbn, some owner⟩ ch m f p n).2
        = some (⟨"RWS", "call", some (rwsEnvelope owner m f p)⟩, n)) ∧
    (ServiceFunctions.extrinsic ⟨some kp, w, rbn, none⟩ ch m f p n).2
        = some (⟨m, f, pyOrNone p⟩, n) := by
  constructor
  · intro owner howner
    rw [extrinsic_submitted _ _ _ _ _ _ kp rfl]
    simp [composeExtrinsicCall, truthyOptStr, howner]
  · rw [extrinsic_submitted _ _ _ _ _ _ kp rfl]
    simp [composeExtrinsicCall, truthyOptStr]

/-- C7 witness: owner `"own"` wraps a `Datalog.record` call into the RWS
envelope. -/
theorem c7_rws_envelope_witness :
    ("own" ≠ "") ∧
    (ServiceFunctions.extrinsic ⟨some kp0, true, false, some "own"⟩ ch0 "Datalog" "record"
        (some (.pyDict [("record", .pyStr "d")])) none).2
      = some (⟨"RWS", "call",
          some (rwsEnvelope "own" "Datalog" "record"
            (some (.pyDict [("record", .pyStr "d")])))⟩, none) :=
  ⟨by decide,
    (c7_rws_envelope kp0 true false ch0 "Datalog" "record"
      (some (.pyDict [("record", .pyStr "d")])) none).1 "own" (by decide)⟩

/-- C7 counterexample: the empty-string owner is non-`None`, yet the
composed call is the bare `Datalog.record`, not an RWS envelope, because
`if not self.rws_sub_owner:` treats `""` as falsy. -/
theorem c7_rws_envelope_counterexample :
    ((some "" : Option String) ≠ none) ∧
    (ServiceFunctions.extrinsic ⟨some kp0, true, false, some ""⟩ ch0 "Datalog" "record"
        none none).2
      = some (⟨"Datalog", "record", none⟩, none) := by
  refine ⟨by decide, ?_⟩
  rw [extrinsic_submitted _ _ _ _ _ _ kp0 rfl]
  rfl

/-- C8 (amended): an account whose `DatalogIndex` end is `0` (no
records) gets `None` from a latest-record fetch rather than an
exception, and a fetch by an explicit *nonzero* index whose stored
record has timestamp `0` also returns `None`.  (Index `0` is falsy in
`if index:` and is treated as a latest-record fetch instead.) -/
theorem c8_fetch_datalog (ch : DatalogChainState) (addr : String)
    (hempty : (ch.datalogIndex addr).2 = 0) :
    Datalog.get_item ch addr none = none ∧
    ∀ i : Int, i ≠ 0 → (ch.datalogItem addr i).1 = 0 →
      Datalog.get_item ch addr (some i) = none := by
  constructor
  · simp [Datalog.get_item, hempty]
  · intro i hi ht
    simp [Datalog.get_item, hi, ht]

/-- C8 witness: a chain with no records returns `None` for the latest
fetch and for an explicit index-3 fetch of a timestamp-0 record. -/
theorem c8_fetch_datalog_witness :
    ((DatalogChainState.mk (fun _ => (0, 0)) (fun _ _ => (0, ""))).datalogIndex "addr").2 = 0 ∧
    Datalog.get_item ⟨fun _ => (0, 0), fun _ _ => (0, "")⟩ "addr" none = none ∧
    Datalog.get_item ⟨fun _ => (0, 0), fun _ _ => (0, "")⟩ "addr" (some 3) = none := by
  refine ⟨rfl, ?_, ?_⟩
  · exact (c8_fetch_datalog ⟨fun _ => (0, 0), fun _ _ => (0, "")⟩ "addr" rfl).1
  · exact (c8_fetch_datalog ⟨fun _ => (0, 0), fun _ _ => (0, "")⟩ "addr" rfl).2 3 (by decide) rfl

/-- C8 counterexample: fetching by the explicit index `0` when the
record stored at index 0 has timestamp `0` does *not* return `None`:
`if index:` treats `0` as falsy and the latest record `(7, "x")` at
index 4 is returned instead. -/
theorem c8_fetch_datalog_counterexample :
    (dlch0.datalogItem "addr" 0).1 = 0 ∧
    Datalog.get_item dlch0 "addr" (some 0) = some (7, "x") := by
  exact ⟨rfl, rfl⟩

/-- C9 (amended): `dt_encode_topic` is deterministic — equal topic
strings always produce equal outputs — but distinct topics cannot always
produce distinct outputs: for *every* 32-byte digest function there
exist two distinct topics with equal encodings (pigeonhole: infinitely
many strings, finitely many 32-byte digests), so collision-freeness as
stated is unsatisfiable and only computational collision resistance can
be meant. -/
theorem c9_dt_encode_topic (h : Sha256) :
    (∀ t1 t2 : String, t1 = t2 → dt_encode_topic h t1 = dt_encode_topic h t2) ∧
    (∃ t1 t2 : String, t1 ≠ t2 ∧ dt_encode_topic h t1 = dt_encode_topic h t2) := by
  constructor
  · intro t1 t2 ht
    rw [ht]
  · have hg : ∀ (s : String) (i : Fin 32),
        (h.digest (utf8Bytes s)).getD i.val 0 < 256 := by
      intro s i
      have hlen := h.digest_len (utf8Bytes s)
      have hi : i.val < (h.digest (utf8Bytes s)).length := by
        rw [hlen]
        exact i.isLt
      rw [List.getD_eq_getElem _ _ hi]
      exact h.digest_lt _ _ (List.getElem_mem hi)
    obtain ⟨t1, t2, hne, heq⟩ := Finite.exists_ne_map_eq_of_infinite
      (fun s : String => (fun i : Fin 32 =>
        (⟨(h.digest (utf8Bytes s)).getD i.val 0, hg s i⟩ : Fin 256)))
    refine ⟨t1, t2, hne, ?_⟩
    have hdig : h.digest (utf8Bytes t1) = h.digest (utf8Bytes t2) := by
      apply List.ext_getElem
      · rw [h.digest_len, h.digest_len]
      · intro i h1 h2
        have hi32 : i < 32 := by
          rw [h.digest_len] at h1
          exact h1
        have hfi := congrFun heq ⟨i, hi32⟩
        have hval := congrArg Fin.val hfi
        simp only at hval
        rw [List.getD_eq_getElem _ _ h1, List.getD_eq_getElem _ _ h2] at hval
        exact hval
    simp [dt_encode_topic, hdig]

/-- C9 counterexample: the claim as stated — distinct topics always get
distinct outputs, for any digest oracle — is false: the (well-typed)
constant digest oracle collides on `"a"` and `"b"`. -/
theorem c9_dt_encode_topic_counterexample :
    ¬ (∀ h : Sha256, ∀ t1 t2 : String, t1 ≠ t2 →
        dt_encode_topic h t1 ≠ dt_encode_topic h t2) := by
  intro H
  exact H sha0 "a" "b" (by decide) rfl

/-- C10 (amended): `Datalog.erase` with a non-`None` nonce `n` passes
`n` positionally into the `params` slot of `ServiceFunctions.extrinsic`:
the submitted call carries `n` as its call parameters when `n ≠ 0`
(a zero nonce is falsy and `params or None` drops it, leaving no
parameters), and the transaction nonce passed to
`create_signed_extrinsic` is always `None`. -/
theorem c10_erase_nonce (kp : Keypair) (w rbn : Bool) (ch : ChainOracle) (n : Int) :
    (Datalog.erase ⟨some kp, w, rbn, none⟩ ch (some n)).2
      = some (⟨"Datalog", "erase", if n = 0 then none else some (.pyInt n)⟩, none) := by
  simp only [Datalog.erase, Option.map_some']
  rw [extrinsic_submitted _ _ _ _ _ _ kp rfl]
  by_cases hn : n = 0
  · simp [composeExtrinsicCall, truthyOptStr, pyOrNone, pyTruthy, hn]
  · simp [composeExtrinsicCall, truthyOptStr, pyOrNone, pyTruthy, hn]

/-- C10 counterexample: with nonce `0` the submitted extrinsic carries
*no* call parameters (`params or None` drops the falsy `0`), refuting
"the submitted extrinsic carries n as its call parameters" at `n = 0`;
the transaction nonce is `None` as before. -/
theorem c10_erase_nonce_counterexample :
    ((Datalog.erase ⟨some kp0, true, false, none⟩ ch0 (some 0)).2.map fun s => s.1.call_params)
      = some none ∧
    (some (none : Option PyValue) ≠ some (some (PyValue.pyInt 0))) := by
  constructor
  · simp only [Datalog.erase, Option.map_some']
    rw [extrinsic_submitted _ _ _ _ _ _ kp0 rfl]
    rfl
  · simp

/-- C9 witness: determinism instantiated at the concrete oracle `sha0`
and topic `"a"`. -/
theorem c9_dt_encode_topic_witness :
    ("a" : String) = "a" ∧ dt_encode_topic sha0 "a" = dt_encode_topic sha0 "a" :=
  ⟨rfl, (c9_dt_encode_topic sha0).1 "a" "a" rfl⟩
